import Mathlib

/-!
A verification development for the GraphOrchestrator runtime.

The definitions below are a shallow embedding of the Python sources:
core/state.py (State), core/retry.py (RetryPolicy),
graph/executor.py (GraphExecutor: the retry loop, the superstep loop,
timeout/fallback handling, routing, checkpointing),
graph/builder.py (GraphBuilder), nodes/base.py and nodes/nodes.py
(Node constructors), decorators/actions.py (role-tag decorators) and
edges/concrete.py, edges/conditional.py.

Python floats are modelled as rationals, State.messages as a list of
integers (the executor treats messages as opaque), and Python
exceptions as Except / explicit error values.
-/

deriving instance DecidableEq for Except

namespace GraphOrchestrator

/-- State.messages (core/state.py): an ordered list of opaque items, modelled
as integers.  State equality is element-wise list equality, which is exactly
equality of these lists. -/
abbrev StateV := List Int

/-- RetryPolicy (core/retry.py lines 4-21): max_retries, delay, backoff.
Delays are Python floats, modelled as rationals. -/
structure RetryPolicy where
  max_retries : Nat := 3
  delay : ℚ := 1
  backoff : ℚ := 2
deriving DecidableEq

/-- The observable behaviour of one call to
GraphExecutor._execute_node_with_retry_async (executor.py lines 56-71):
the value returned or the exception finally rethrown, the number of times
node.execute was invoked, and the back-off sleeps performed in order. -/
structure RetryTrace where
  result : Except String StateV
  invocations : Nat
  sleeps : List ℚ

/-- The while-loop of _execute_node_with_retry_async (executor.py lines 57-71).
attempts gives the outcome of node.execute on each 0-based attempt;
left is retry_policy.max_retries minus the current attempt number, so
left = 0 means the current attempt is the last one and its exception is
rethrown (line 65-67); otherwise the loop sleeps delay, multiplies delay
by backoff and retries (lines 68-71). -/
def ewrGo (attempts : Nat → Except String StateV) (backoff : ℚ) :
    Nat → ℚ → Nat → RetryTrace
  | attempt, _, 0 =>
    match attempts attempt with
    | .ok s => ⟨.ok s, 1, []⟩
    | .error e => ⟨.error e, 1, []⟩
  | attempt, delay, left+1 =>
    match attempts attempt with
    | .ok s => ⟨.ok s, 1, []⟩
    | .error _ =>
      let t := ewrGo attempts backoff (attempt+1) (delay * backoff) left
      ⟨t.result, t.invocations + 1, delay :: t.sleeps⟩

/-- _execute_node_with_retry_async (executor.py lines 56-71): the loop starts
at attempt 0 with delay retry_policy.delay and runs while
attempt ≤ retry_policy.max_retries. -/
def executeWithRetry (attempts : Nat → Except String StateV) (p : RetryPolicy) :
    RetryTrace :=
  ewrGo attempts p.backoff 0 p.delay p.max_retries

lemma ewrGo_zero_def (f : Nat → Except String StateV) (b : ℚ) (a : Nat) (d : ℚ) :
    ewrGo f b a d 0 =
      match f a with
      | .ok s => ⟨.ok s, 1, []⟩
      | .error e => ⟨.error e, 1, []⟩ := rfl

lemma ewrGo_succ_def (f : Nat → Except String StateV) (b : ℚ) (a : Nat) (d : ℚ)
    (n : Nat) :
    ewrGo f b a d (n+1) =
      match f a with
      | .ok s => ⟨.ok s, 1, []⟩
      | .error _ =>
        ⟨(ewrGo f b (a+1) (d * b) n).result,
         (ewrGo f b (a+1) (d * b) n).invocations + 1,
         d :: (ewrGo f b (a+1) (d * b) n).sleeps⟩ := rfl

lemma ewrGo_invocations_pos (f : Nat → Except String StateV) (b : ℚ) :
    ∀ left attempt delay, 1 ≤ (ewrGo f b attempt delay left).invocations := by
  intro left
  induction left with
  | zero =>
    intro a d
    rw [ewrGo_zero_def]
    cases f a <;> simp
  | succ n ih =>
    intro a d
    rw [ewrGo_succ_def]
    cases f a <;> simp

lemma ewrGo_invocations_le (f : Nat → Except String StateV) (b : ℚ) :
    ∀ left attempt delay, (ewrGo f b attempt delay left).invocations ≤ left + 1 := by
  intro left
  induction left with
  | zero =>
    intro a d
    rw [ewrGo_zero_def]
    cases f a <;> simp
  | succ n ih =>
    intro a d
    rw [ewrGo_succ_def]
    cases f a
    · exact Nat.succ_le_succ (ih (a+1) (d * b))
    · simp

lemma ewrGo_sleeps (f : Nat → Except String StateV) (b : ℚ) :
    ∀ left attempt delay,
      (ewrGo f b attempt delay left).sleeps =
        (List.range ((ewrGo f b attempt delay left).invocations - 1)).map
          (fun i => delay * b ^ i) := by
  intro left
  induction left with
  | zero =>
    intro a d
    rw [ewrGo_zero_def]
    cases f a <;> simp
  | succ n ih =>
    intro a d
    rw [ewrGo_succ_def]
    cases f a
    case error e =>
      simp only []
      have hpos := ewrGo_invocations_pos f b n (a+1) (d * b)
      set t := ewrGo f b (a+1) (d * b) n with ht
      obtain ⟨k, hk⟩ : ∃ k, t.invocations = k + 1 :=
        ⟨t.invocations - 1, by omega⟩
      have ihs := ih (a+1) (d * b)
      rw [← ht] at ihs
      show d :: t.sleeps =
        (List.range (t.invocations + 1 - 1)).map (fun i => d * b ^ i)
      rw [ihs, hk]
      simp only [Nat.add_sub_cancel, List.range_succ_eq_map, List.map_cons,
        List.map_map]
      congr 1
      · simp
      · apply List.map_congr_left
        intro i _
        simp only [Function.comp_apply]
        rw [pow_succ]
        ring
    case ok s => simp

lemma ewrGo_all_fail (f : Nat → Except String StateV) (b : ℚ) :
    ∀ left attempt delay,
      (∀ i, attempt ≤ i → i ≤ attempt + left → ∃ e, f i = .error e) →
      (ewrGo f b attempt delay left).result = f (attempt + left) ∧
      (ewrGo f b attempt delay left).invocations = left + 1 := by
  intro left
  induction left with
  | zero =>
    intro a d h
    obtain ⟨e, he⟩ := h a (le_refl a) (by omega)
    rw [ewrGo_zero_def, he]
    exact ⟨by simp [he], rfl⟩
  | succ n ih =>
    intro a d h
    obtain ⟨e, he⟩ := h a (le_refl a) (by omega)
    rw [ewrGo_succ_def, he]
    have ihr := ih (a+1) (d * b) (fun i h1 h2 => h i (by omega) (by omega))
    refine ⟨?_, ?_⟩
    · show (ewrGo f b (a+1) (d * b) n).result = f (a + (n+1))
      rw [ihr.1]
      exact congrArg f (by omega)
    · show (ewrGo f b (a+1) (d * b) n).invocations + 1 = n + 1 + 1
      rw [ihr.2]

/-- C8: for every node, retry policy and superstep visit, execute_with_retry
invokes the node's execute at most max_retries + 1 times; the sleep before the
(i+1)-th retry is delay * backoff ^ i; and if every attempt raises, the
exception of the final attempt (attempt number max_retries) is rethrown. -/
theorem c8_retry_bound (p : RetryPolicy) (f : Nat → Except String StateV) :
    (executeWithRetry f p).invocations ≤ p.max_retries + 1 ∧
    (executeWithRetry f p).sleeps =
      (List.range ((executeWithRetry f p).invocations - 1)).map
        (fun i => p.delay * p.backoff ^ i) ∧
    ((∀ i, i ≤ p.max_retries → ∃ e, f i = Except.error e) →
      (executeWithRetry f p).result = f p.max_retries ∧
      (executeWithRetry f p).invocations = p.max_retries + 1) := by
  refine ⟨ewrGo_invocations_le f p.backoff p.max_retries 0 p.delay,
          ewrGo_sleeps f p.backoff p.max_retries 0 p.delay, ?_⟩
  intro h
  have := ewrGo_all_fail f p.backoff p.max_retries 0 p.delay
    (fun i h1 h2 => h i (by omega))
  simpa [executeWithRetry] using this

/-- Witness for C8 at a concrete failing action and policy. -/
theorem c8_retry_bound_witness :
    (executeWithRetry (fun _ => Except.error "boom") ⟨1, 2, 3⟩).result =
      Except.error "boom" ∧
    (executeWithRetry (fun _ => Except.error "boom") ⟨1, 2, 3⟩).invocations = 2 :=
  (c8_retry_bound ⟨1, 2, 3⟩ (fun _ => Except.error "boom")).2.2
    (fun _ _ => ⟨"boom", rfl⟩)

/-- The retry-relevant view of a node (nodes/base.py lines 14-46): the node's
attempt outcomes (node.execute applied to the node's input, per 0-based attempt
number) and the optional per-node retry_policy field. -/
structure NodeRT where
  attempts : Nat → Except String StateV
  retryPolicy : Option RetryPolicy := none

/-- Node.set_retry_policy (nodes/base.py lines 45-46). -/
def setRetryPolicy (n : NodeRT) (p : RetryPolicy) : NodeRT :=
  { n with retryPolicy := some p }

/-- Task dispatch for one node in a superstep (executor.py lines 82-92): the
executor calls _execute_node_with_retry_async(node, input_data,
self.retry_policy) — the policy argument is always the executor-wide policy;
the node's own retry_policy field is not consulted. -/
def runNodeTask (executorPolicy : RetryPolicy) (n : NodeRT) : RetryTrace :=
  executeWithRetry n.attempts executorPolicy

/-- A node whose per-node policy allows no retries (max_retries = 0) and whose
action fails on attempt 0 but would succeed on attempt 1. -/
def c1Node : NodeRT :=
  setRetryPolicy
    { attempts := fun i => if i = 0 then .error "boom" else .ok [7] }
    ⟨0, 5, 1⟩

/-- C1 is false: this node has retry_policy set to (max_retries = 0,
delay = 5, backoff = 1), yet under the default executor-wide policy
(max_retries = 3, delay = 1, backoff = 2) the executor invokes its action
twice (more than the node policy's max_retries + 1 = 1) and sleeps 1 second
(the executor default's delay), not 5: the number of attempts and the sleeps
are governed by the executor-wide policy, not the node's own. -/
theorem c1_counterexample :
    c1Node.retryPolicy = some ⟨0, 5, 1⟩ ∧
    (runNodeTask ⟨3, 1, 2⟩ c1Node).invocations = 2 ∧
    ¬ (runNodeTask ⟨3, 1, 2⟩ c1Node).invocations ≤ 0 + 1 ∧
    (runNodeTask ⟨3, 1, 2⟩ c1Node).sleeps = [1] ∧
    (runNodeTask ⟨3, 1, 2⟩ c1Node).sleeps ≠ [5] := by
  refine ⟨rfl, rfl, by decide, rfl, by decide⟩

/-- C1 amended: execute_with_retry is always driven by the executor-wide
policy passed at construction; the per-node retry_policy set via
set_retry_policy is never consulted (replacing it changes nothing), and the
attempt count and sleeps are governed by the executor-wide policy. -/
theorem c1_amended (executorPolicy : RetryPolicy) (n : NodeRT)
    (q : Option RetryPolicy) :
    runNodeTask executorPolicy { n with retryPolicy := q } =
      runNodeTask executorPolicy n ∧
    (runNodeTask executorPolicy n).invocations ≤ executorPolicy.max_retries + 1 ∧
    (runNodeTask executorPolicy n).sleeps =
      (List.range ((runNodeTask executorPolicy n).invocations - 1)).map
        (fun i => executorPolicy.delay * executorPolicy.backoff ^ i) :=
  ⟨rfl,
   ewrGo_invocations_le n.attempts executorPolicy.backoff
     executorPolicy.max_retries 0 executorPolicy.delay,
   ewrGo_sleeps n.attempts executorPolicy.backoff
     executorPolicy.max_retries 0 executorPolicy.delay⟩

/-! ## The superstep scheduler (executor.py lines 73-152)

At this layer one awaited task is abstracted by its outcome: the value it
returned, a timeout of the asyncio.wait_for wrapper, or the exception finally
rethrown by the retry loop.  States are modelled by value (copy.deepcopy is
the identity on values); the object-level aliasing behaviour of deepcopy is
modelled separately below for claim C9. -/

/-- Outcome of awaiting one node task (the retry loop of lines 56-71 wrapped
in asyncio.wait_for at lines 86-91): a returned state, a TimeoutError, or the
exception message finally rethrown after all retries. -/
inductive TaskOut
  | ok (s : StateV)
  | timeout
  | exn (msg : String)
deriving DecidableEq

/-- A Python value returned by a routing function: a string, or a non-string
value with its repr (decorators/actions.py lines 17-55 raise on the latter). -/
inductive RVal
  | vstr (s : String)
  | vother (valueRepr : String)

/-- input_data computed at executor.py line 84: the whole pending list for an
AggregatorNode, otherwise a deep copy of the first pending state. -/
inductive NInput
  | single (s : StateV)
  | multi (ss : List StateV)
deriving DecidableEq

/-- An outgoing edge as the executor sees it (lines 121-131):
ConcreteEdge carries one sink id (edges/concrete.py), ConditionalEdge carries
the declared sink ids and the decorated routing function
(edges/conditional.py). -/
inductive EdgeM
  | concrete (sink : String)
  | conditional (sinks : List String) (router : StateV → RVal)

/-- A node as the executor sees it: the AggregatorNode marker (nodes/nodes.py),
the behaviour of its awaited task, fallback_node_id and outgoing_edges
(nodes/base.py lines 14-24). -/
structure NodeM where
  isAggregator : Bool := false
  run : NInput → TaskOut
  fallback : Option String := none
  outgoing : List EdgeM := []

/-- Graph (graph/graph.py): nodes indexed by id plus the designated start and
end node ids. -/
structure GraphM where
  nodes : List (String × NodeM)
  startId : String := "start"
  endId : String := "end"

/-- The errors execute can raise.  timeoutErr, nodeFailed, fallbackFailed,
invalidRoutingOutput and maxSupersteps are GraphExecutionError values
(executor.py lines 101, 118, 115, 129, 148) carrying the named node id;
routingNonString is the InvalidRoutingFunctionOutput raised inside the
routing_function decorator (decorators/actions.py line 51) and carries the
repr of the non-string value. -/
inductive ExecErr
  | timeoutErr (nodeId : String)
  | nodeFailed (nodeId : String) (msg : String)
  | fallbackFailed (fallbackId : String) (msg : String)
  | invalidRoutingOutput (nodeId : String) (value : String)
  | routingNonString (valueRepr : String)
  | maxSupersteps
deriving DecidableEq

/-- The pending map: node_id → list of pending input states, in insertion
order (a Python defaultdict(list) preserves key insertion order). -/
abbrev PMap := List (String × List StateV)

/-- next_active_states[sink].append(state): append to the existing key or add
the key at the end, as a Python defaultdict does. -/
def pmAppend (m : PMap) (k : String) (v : StateV) : PMap :=
  match m with
  | [] => [(k, [v])]
  | (k', vs) :: rest =>
    if k' = k then (k', vs ++ [v]) :: rest else (k', vs) :: pmAppend rest k v

/-- The pending list of a node id (empty when absent). -/
def pmGet (m : PMap) (k : String) : List StateV :=
  match m with
  | [] => []
  | (k', vs) :: rest => if k' = k then vs else pmGet rest k

/-- Lookup in the node table by id (first match). -/
def lookupNode : List (String × NodeM) → String → NodeM
  | [], _ => { run := fun _ => .exn "KeyError" }
  | (k, n) :: rest, id => if k = id then n else lookupNode rest id

/-- graph.nodes[node_id]; builder-produced graphs contain every referenced id,
so the inert KeyError node is never reached on them. -/
def getNode (g : GraphM) (id : String) : NodeM :=
  lookupNode g.nodes id

/-- Routing of one outgoing edge of a completed node (executor.py lines
121-131): a ConcreteEdge appends a deep copy of the result to its sink's
pending list; a ConditionalEdge first invokes the decorated routing function
(which raises InvalidRoutingFunctionOutput on a non-string value), then
checks the returned id against the declared sink ids and raises
GraphExecutionError "Invalid routing output" for an unknown id, else appends
a deep copy to the chosen sink's pending list. -/
def routeOne (nodeId : String) (result : StateV) (edge : EdgeM) (next : PMap) :
    Except ExecErr PMap :=
  match edge with
  | .concrete sink => .ok (pmAppend next sink result)
  | .conditional sinks router =>
    match router result with
    | .vother r => .error (.routingNonString r)
    | .vstr c =>
      if c ∈ sinks then .ok (pmAppend next c result)
      else .error (.invalidRoutingOutput nodeId c)

/-- for edge in node.outgoing_edges (executor.py line 121), in order. -/
def routeAll (nodeId : String) (result : StateV) (edges : List EdgeM)
    (next : PMap) : Except ExecErr PMap :=
  match edges with
  | [] => .ok next
  | e :: rest =>
    match routeOne nodeId result e next with
    | .error err => .error err
    | .ok next' => routeAll nodeId result rest next'

/-- The try/except around one awaited task (executor.py lines 96-118):
a TimeoutError is fatal and is never given to the fallback; any other
exception invokes the fallback node (when fallback_node_id is truthy) on the
node's original input under its own wait_for, with fallback failure raising
GraphExecutionError naming the fallback node; with no fallback the error is
fatal naming the node. -/
def handleTask (g : GraphM) (nodeId : String) (inp : NInput) (out : TaskOut) :
    Except ExecErr StateV :=
  match out with
  | .ok s => .ok s
  | .timeout => .error (.timeoutErr nodeId)
  | .exn e =>
    match (getNode g nodeId).fallback with
    | some fid =>
      if fid = "" then .error (.nodeFailed nodeId e)
      else
        match (getNode g fid).run inp with
        | .ok s => .ok s
        | .timeout => .error (.fallbackFailed fid "TimeoutError")
        | .exn fe => .error (.fallbackFailed fid fe)
    | none => .error (.nodeFailed nodeId e)

/-- One event of the result-await loop (executor.py lines 94-134): a task
whose result was awaited, or a task that was cancelled.  The loop in the
source only ever awaits: no code path cancels a task. -/
inductive TraceEv
  | awaited (nodeId : String)
  | cancelled (nodeId : String)
deriving DecidableEq

/-- The result-await loop of one superstep (executor.py lines 94-137): for
each (node_id, task, original_input) in order, await the task, apply the
timeout/fallback handling, route the result along the original node's
outgoing edges, and record final_state when the node is the end node.  Any
raised error aborts the loop immediately.  Returns the loop's outcome (next
pending map and final_state, or the error) together with the trace of
awaited/cancelled events. -/
def processTasks (g : GraphM) :
    List (String × NInput) → PMap → Option StateV →
    (Except ExecErr (PMap × Option StateV)) × List TraceEv
  | [], next, final => (.ok (next, final), [])
  | (nodeId, inp) :: rest, next, final =>
    match handleTask g nodeId inp ((getNode g nodeId).run inp) with
    | .error e => (.error e, [.awaited nodeId])
    | .ok result =>
      match routeAll nodeId result (getNode g nodeId).outgoing next with
      | .error e => (.error e, [.awaited nodeId])
      | .ok next' =>
        let final' := if nodeId = g.endId then some result else final
        let out := processTasks g rest next' final'
        (out.1, .awaited nodeId :: out.2)

/-- Task construction for one superstep (executor.py lines 82-92): for each
(node_id, states) of the pending map in order, the input is the whole states
list for an AggregatorNode and a deep copy of states[0] otherwise. -/
def mkTasks (g : GraphM) (active : PMap) : List (String × NInput) :=
  active.map (fun p =>
    (p.1, if (getNode g p.1).isAggregator then NInput.multi p.2
          else NInput.single p.2.headI))

/-- One full superstep: dispatch then the result-await loop. -/
def runSuperstep (g : GraphM) (active : PMap) (final : Option StateV) :
    Except ExecErr (PMap × Option StateV) :=
  (processTasks g (mkTasks g active) [] final).1

/-- The while-loop of execute (executor.py lines 77-148), with fuel =
max_supersteps - superstep.  fuel = 0 means the counter has reached
max_supersteps: the loop cannot run another iteration and the final check
(lines 146-148) raises "Max supersteps reached" — even when the pending map
is empty.  With fuel left, an empty pending map exits the loop and the final
local final_state is returned (line 152). -/
def execGo (g : GraphM) : Nat → PMap → Option StateV → Except ExecErr (Option StateV)
  | 0, _, _ => .error .maxSupersteps
  | _+1, [], final => .ok final
  | fuel+1, active, final =>
    match runSuperstep g active final with
    | .error e => .error e
    | .ok (next, final') => execGo g fuel next final'

/-- GraphExecutor.execute (executor.py lines 73-152) started from a given
pending map and superstep counter (0 for a fresh executor, the stored index
for one built by from_checkpoint).  The local variable final_state is
initialised to None at line 75 regardless of the executor's self.final_state
field. -/
def executeModel (g : GraphM) (active : PMap) (superstep : Nat)
    (maxSupersteps : Nat) : Except ExecErr (Option StateV) :=
  execGo g (maxSupersteps - superstep) active none

lemma processTasks_nil (g : GraphM) (next : PMap) (final : Option StateV) :
    processTasks g [] next final = (.ok (next, final), []) := rfl

lemma processTasks_cons (g : GraphM) (nodeId : String) (inp : NInput)
    (rest : List (String × NInput)) (next : PMap) (final : Option StateV) :
    processTasks g ((nodeId, inp) :: rest) next final =
      match handleTask g nodeId inp ((getNode g nodeId).run inp) with
      | .error e => (.error e, [.awaited nodeId])
      | .ok result =>
        match routeAll nodeId result (getNode g nodeId).outgoing next with
        | .error e => (.error e, [.awaited nodeId])
        | .ok next' =>
          ((processTasks g rest next'
              (if nodeId = g.endId then some result else final)).1,
           .awaited nodeId ::
             (processTasks g rest next'
               (if nodeId = g.endId then some result else final)).2) := rfl

/-- True exactly on cancellation events. -/
def isCancelledEv : TraceEv → Bool
  | .cancelled _ => true
  | .awaited _ => false

/-- Two sibling tasks: "x" fails with no fallback, "y" would succeed. -/
def gC2 : GraphM :=
  { nodes := [("x", { run := fun _ => .exn "boom" }),
              ("y", { run := fun _ => .ok [2] })] }

/-- C2 is false: in a superstep where x's task fails fatally while y's task
is still pending, the executor propagates the error having awaited only x;
y's task is neither cancelled nor awaited — no code path in the result loop
cancels a sibling task. -/
theorem c2_counterexample :
    (processTasks gC2 (mkTasks gC2 [("x", [[1]]), ("y", [[1]])]) [] none).1 =
      .error (.nodeFailed "x" "boom") ∧
    (processTasks gC2 (mkTasks gC2 [("x", [[1]]), ("y", [[1]])]) [] none).2 =
      [.awaited "x"] ∧
    TraceEv.awaited "y" ∉
      (processTasks gC2 (mkTasks gC2 [("x", [[1]]), ("y", [[1]])]) [] none).2 ∧
    TraceEv.cancelled "y" ∉
      (processTasks gC2 (mkTasks gC2 [("x", [[1]]), ("y", [[1]])]) [] none).2 := by
  refine ⟨rfl, rfl, by decide, by decide⟩

/-- C2 amended: on a fatal condition the executor propagates the error
immediately; it never cancels any task (the trace contains no cancellation
events), and the tasks awaited are exactly an initial prefix of the
superstep's task list — tasks after the failing one are simply abandoned. -/
theorem c2_amended (g : GraphM) (tasks : List (String × NInput)) (next : PMap)
    (final : Option StateV) :
    (processTasks g tasks next final).2.filter isCancelledEv = [] ∧
    (processTasks g tasks next final).2 =
      ((tasks.map Prod.fst).take
        (processTasks g tasks next final).2.length).map TraceEv.awaited := by
  induction tasks generalizing next final with
  | nil => exact ⟨rfl, rfl⟩
  | cons hd rest ih =>
    obtain ⟨nodeId, inp⟩ := hd
    rw [processTasks_cons]
    cases handleTask g nodeId inp ((getNode g nodeId).run inp) with
    | error e => exact ⟨rfl, rfl⟩
    | ok result =>
      dsimp only
      cases routeAll nodeId result (getNode g nodeId).outgoing next with
      | error e => exact ⟨rfl, rfl⟩
      | ok next' =>
        dsimp only
        have := ih next' (if nodeId = g.endId then some result else final)
        refine ⟨?_, ?_⟩
        · rw [List.filter_cons]
          simpa [isCancelledEv] using this.1
        · simp only [List.map_cons, List.length_cons, List.take_succ_cons,
            List.map_cons]
          exact congrArg (TraceEv.awaited nodeId :: ·) this.2

lemma execGo_zero (g : GraphM) (active : PMap) (final : Option StateV) :
    execGo g 0 active final = .error .maxSupersteps := rfl

lemma execGo_succ_nil (g : GraphM) (fuel : Nat) (final : Option StateV) :
    execGo g (fuel+1) [] final = .ok final := rfl

lemma execGo_succ_cons (g : GraphM) (fuel : Nat) (p : String × List StateV)
    (rest : PMap) (final : Option StateV) :
    execGo g (fuel+1) (p :: rest) final =
      match runSuperstep g (p :: rest) final with
      | .error e => .error e
      | .ok (next, final') => execGo g fuel next final' := rfl

/-- The two-superstep graph start → end. -/
def passNode (edges : List EdgeM) : NodeM :=
  { run := fun inp =>
      match inp with
      | .single s => .ok s
      | .multi ss => .ok ss.headI,
    outgoing := edges }

def gLinear : GraphM :=
  { nodes := [("start", passNode [.concrete "end"]), ("end", passNode [])] }

/-- C4 is false at the boundary: the graph start → end drains after exactly
2 supersteps (so with max_supersteps = 3 it returns the final state), yet
running it with max_supersteps = 2 — equal to the number of supersteps
performed — raises "Max supersteps reached" instead of returning final_state:
the post-loop check fires whenever the counter reached the bound, drained or
not. -/
theorem c4_counterexample :
    executeModel gLinear [("start", [[1]])] 0 2 = .error .maxSupersteps ∧
    executeModel gLinear [("start", [[1]])] 0 3 = .ok (some [1]) := by
  exact ⟨rfl, rfl⟩

/-- C4 amended: execute returns final_state (without the max-supersteps
error) whenever the pending map drains strictly before the superstep counter
reaches max_supersteps, and any larger budget returns the same result; but
when the counter reaches max_supersteps at loop exit the "max supersteps
reached" error is raised even if the graph drained on exactly that
superstep. -/
theorem c4_amended (g : GraphM) (active : PMap) (final : Option StateV)
    (fuel : Nat) (r : Option StateV) :
    execGo g 0 active final = .error .maxSupersteps ∧
    (active = [] → execGo g (fuel+1) active final = .ok final) ∧
    (execGo g fuel active final = .ok r → execGo g (fuel+1) active final = .ok r) := by
  refine ⟨execGo_zero g active final, ?_, ?_⟩
  · rintro rfl
    exact execGo_succ_nil g fuel final
  · induction fuel generalizing active final with
    | zero =>
      intro h
      rw [execGo_zero] at h
      exact absurd h (by simp)
    | succ n ih =>
      intro h
      cases active with
      | nil =>
        rw [execGo_succ_nil] at h
        rw [execGo_succ_nil]
        exact h
      | cons p rest =>
        rw [execGo_succ_cons] at h
        rw [execGo_succ_cons]
        cases hs : runSuperstep g (p :: rest) final with
        | error e =>
          rw [hs] at h
          exact absurd h (by simp)
        | ok out =>
          obtain ⟨nxt, fin⟩ := out
          rw [hs] at h
          exact ih nxt fin h

/-- Witness for C4 amended: a drained pending map with budget left returns
the recorded final state, and enlarging the budget of a successful run
preserves its result. -/
theorem c4_amended_witness :
    execGo gLinear 1 [] (some [1]) = .ok (some [1]) ∧
    execGo gLinear 4 [("start", [[1]])] none = .ok (some [1]) :=
  ⟨(c4_amended gLinear [] (some [1]) 0 none).2.1 rfl,
   (c4_amended gLinear [("start", [[1]])] none 3 (some [1])).2.2 rfl⟩

lemma pmGet_pmAppend_self (m : PMap) (k : String) (v : StateV) :
    pmGet (pmAppend m k v) k = pmGet m k ++ [v] := by
  induction m with
  | nil => simp [pmAppend, pmGet]
  | cons p rest ih =>
    obtain ⟨k', vs⟩ := p
    by_cases h : k' = k
    · simp [pmAppend, pmGet, h]
    · simp [pmAppend, pmGet, h, ih]

lemma pmGet_pmAppend_ne (m : PMap) (k : String) (v : StateV) (j : String)
    (h : j ≠ k) : pmGet (pmAppend m k v) j = pmGet m j := by
  have hkj : ¬ k = j := fun hh => h hh.symm
  induction m with
  | nil => simp [pmAppend, pmGet, hkj]
  | cons p rest ih =>
    obtain ⟨k', vs⟩ := p
    by_cases hk : k' = k
    · subst hk
      simp [pmAppend, pmGet, hkj]
    · by_cases hj : k' = j
      · subst hj
        simp [pmAppend, pmGet, hk]
      · simp [pmAppend, pmGet, hk, hj, ih]

/-- C6: when a Conditional edge is evaluated after its source succeeds, a
non-string router value raises the InvalidRoutingFunctionOutput error naming
the value and nothing is routed; a string that is not a declared sink id
raises the "Invalid routing output" execution error naming the value and
nothing is routed; a declared sink id appends exactly one copy of the result
state to that sink's pending list, leaving every other pending list
unchanged. -/
theorem c6_conditional_routing (id c r : String) (result : StateV)
    (sinks : List String) (router : StateV → RVal) (next : PMap) :
    (router result = .vother r →
      routeOne id result (.conditional sinks router) next =
        .error (.routingNonString r)) ∧
    (router result = .vstr c → c ∉ sinks →
      routeOne id result (.conditional sinks router) next =
        .error (.invalidRoutingOutput id c)) ∧
    (router result = .vstr c → c ∈ sinks →
      routeOne id result (.conditional sinks router) next =
        .ok (pmAppend next c result) ∧
      pmGet (pmAppend next c result) c = pmGet next c ++ [result] ∧
      ∀ j, j ≠ c → pmGet (pmAppend next c result) j = pmGet next j) := by
  refine ⟨?_, ?_, ?_⟩
  · intro h
    simp [routeOne, h]
  · intro h hmem
    simp [routeOne, h, hmem]
  · intro h hmem
    refine ⟨by simp [routeOne, h, hmem], pmGet_pmAppend_self next c result,
      fun j hj => pmGet_pmAppend_ne next c result j hj⟩

/-- Witness for C6 at a concrete edge: the router chooses the declared sink
"end", and exactly the state [1] is appended to its pending list. -/
theorem c6_conditional_routing_witness :
    routeOne "n1" [1]
        (.conditional ["end"] (fun _ => RVal.vstr "end")) [] =
      .ok [("end", [[1]])] ∧
    pmGet [("end", [[1]])] "end" = [[1]] :=
  ⟨((c6_conditional_routing "n1" "end" "r" [1] ["end"]
      (fun _ => RVal.vstr "end") []).2.2 rfl (by simp)).1,
   rfl⟩

/-- C5: a timed-out task is fatal and its fallback is never invoked (for
every graph, whatever the node's fallback declares, the timeout propagates
as the execution error naming the node); a task whose action failed after
all retries and whose node declares a fallback runs the fallback node on the
node's original input, and on fallback success the result is routed along
the outgoing edges of the original node; a failing fallback (exception or
timeout of its own fresh wait_for budget) raises the execution error naming
the fallback node. -/
theorem c5_fallback (g : GraphM) (id fid v : String) (inp : NInput)
    (e : String) (s' : StateV) (next : PMap) (final : Option StateV) :
    (handleTask g id inp .timeout = .error (.timeoutErr id)) ∧
    ((getNode g id).run inp = .exn e → (getNode g id).fallback = some fid →
     fid ≠ "" →
      ((getNode g fid).run inp = .ok s' →
       (getNode g id).outgoing = [.concrete v] → id ≠ g.endId →
        (processTasks g [(id, inp)] next final).1 =
          .ok (pmAppend next v s', final)) ∧
      (∀ fe, (getNode g fid).run inp = .exn fe →
        (processTasks g [(id, inp)] next final).1 =
          .error (.fallbackFailed fid fe)) ∧
      ((getNode g fid).run inp = .timeout →
        (processTasks g [(id, inp)] next final).1 =
          .error (.fallbackFailed fid "TimeoutError"))) := by
  refine ⟨rfl, ?_⟩
  intro hrun hfb hne
  refine ⟨?_, ?_, ?_⟩
  · intro hok houtg hend
    rw [processTasks_cons, hrun]
    simp only [handleTask, hfb, if_neg hne, hok, houtg]
    simp [routeAll, routeOne, processTasks_nil, hend]
  · intro fe hfe
    rw [processTasks_cons, hrun]
    simp [handleTask, hfb, if_neg hne, hfe]
  · intro htm
    rw [processTasks_cons, hrun]
    simp [handleTask, hfb, if_neg hne, htm]

/-- A node "p" that fails, with fallback "f" that succeeds with [9] and an
outgoing concrete edge to "v". -/
def gC5 : GraphM :=
  { nodes := [("p", { run := fun _ => .exn "boom",
                      fallback := some "f",
                      outgoing := [.concrete "v"] }),
              ("f", { run := fun _ => .ok [9] }),
              ("v", { run := fun inp =>
                        match inp with
                        | .single s => .ok s
                        | .multi ss => .ok ss.headI })] }

/-- Witness for C5: the fallback's result [9] is routed along p's own
outgoing edge to "v". -/
theorem c5_fallback_witness :
    (processTasks gC5 [("p", .single [1])] [] none).1 =
      .ok ([("v", [[9]])], none) :=
  ((c5_fallback gC5 "p" "f" "v" (.single [1]) "boom" [9] [] none).2
    rfl rfl (by decide)).1 rfl rfl (by decide)

/-! ## Checkpointing (core/checkpoint.py, executor.py lines 30-54, 139-142) -/

/-- CheckpointData as far as execution is concerned (core/checkpoint.py):
the pending map, the superstep counter and the executor's final_state field.
(The stored graph, initial state, retry policy and max_workers do not affect
the resumed run's result for a fixed graph.) -/
structure CheckpointDataM where
  active : PMap
  superstep : Nat
  finalField : Option StateV
deriving DecidableEq

/-- k supersteps of the main loop, threading the local final_state. -/
def runSteps (g : GraphM) : Nat → PMap → Option StateV →
    Except ExecErr (PMap × Option StateV)
  | 0, m, f => .ok (m, f)
  | k+1, m, f =>
    match runSuperstep g m f with
    | .error e => .error e
    | .ok (m', f') => runSteps g k m' f'

/-- The checkpoint a fresh run autosaves after its k-th superstep
(executor.py lines 139-142 call to_checkpoint, lines 30-39): active_states
and superstep come from the loop, but final_state is the executor's
self.final_state field — which execute never assigns (the loop only updates
its local final_state variable), so in a fresh run it is still the None set
in __init__ (line 28). -/
def checkpointAfter (g : GraphM) (s0 : StateV) (k : Nat) :
    Option CheckpointDataM :=
  match runSteps g k [(g.startId, [s0])] none with
  | .ok (m, _) => some ⟨m, k, none⟩
  | .error _ => none

/-- GraphExecutor.from_checkpoint followed by execute (executor.py lines
41-54 then 73-152): the resumed executor starts the loop from the stored
pending map and superstep; the restored self.final_state field is ignored
because execute initialises its local final_state to None (line 75). -/
def resumeFromCheckpoint (g : GraphM) (chk : CheckpointDataM)
    (maxSupersteps : Nat) : Except ExecErr (Option StateV) :=
  executeModel g chk.active chk.superstep maxSupersteps

/-- Deterministic graph on which the end node runs at superstep 2 while the
branch through c and d is still pending: start fans out to a and b; a feeds
end; b → c → d, and d has no outgoing edges. -/
def gC3 : GraphM :=
  { nodes := [("start", passNode [.concrete "a", .concrete "b"]),
              ("a", passNode [.concrete "end"]),
              ("b", passNode [.concrete "c"]),
              ("c", passNode [.concrete "d"]),
              ("d", passNode []),
              ("end", passNode [])] }

/-- C3 fails on the code: the uninterrupted run of gC3 returns the end
node's state [1], and the checkpoint the run saves after superstep 3 (end
already executed at superstep 2, branch d still pending) stores
final_state = None because execute never writes self.final_state; resuming
from that checkpoint and executing returns None, not [1], because execute
also ignores the restored field and starts its local final_state at None. -/
theorem c3_checkpoint_divergence :
    executeModel gC3 [("start", [[1]])] 0 100 = .ok (some [1]) ∧
    checkpointAfter gC3 [1] 3 = some ⟨[("d", [[1]])], 3, none⟩ ∧
    resumeFromCheckpoint gC3 ⟨[("d", [[1]])], 3, none⟩ 100 = .ok none ∧
    (Except.ok none : Except ExecErr (Option StateV)) ≠ .ok (some [1]) := by
  refine ⟨?_, ?_, ?_, by decide⟩ <;> rfl

/-! ## GraphBuilder (graph/builder.py)

The builder's edge bookkeeping.  Python compares Node objects by identity;
since graph.nodes maps each id to a single object, identity of nodes
coincides with equality of their ids, so edges are modelled by id pairs.
Python's in-place mutation raises before touching the graph on every failure
path, so each operation returns the (possibly unchanged) builder together
with the optionally raised error. -/

/-- The builder-level errors (core/exceptions.py): DuplicateNodeError,
NodeNotFoundError, EdgeExistsError, GraphConfigurationError,
RoutingFunctionNotDecoratedError. -/
inductive BErr
  | duplicateNode (nodeId : String)
  | nodeNotFound (nodeId : String)
  | edgeExists (sourceId sinkId : String)
  | graphConfig (msg : String)
  | routerNotDecorated
deriving DecidableEq

/-- A ConditionalEdge as the builder records it: source id and the ordered
declared sink ids. -/
structure CondEdgeB where
  source : String
  sinks : List String
deriving DecidableEq

/-- The builder's graph: node-table keys in insertion order, concrete edges
and conditional edges in registration order. -/
structure BuilderG where
  nodeIds : List String
  concreteEdges : List (String × String)
  conditionalEdges : List CondEdgeB
deriving DecidableEq

/-- GraphBuilder.__init__ (builder.py lines 16-22): seeds the start and end
identity nodes. -/
def builderInit : BuilderG := ⟨["start", "end"], [], []⟩

/-- GraphBuilder.add_node (builder.py lines 24-30). -/
def addNode (b : BuilderG) (id : String) : BuilderG × Option BErr :=
  if id ∈ b.nodeIds then (b, some (.duplicateNode id))
  else ({ b with nodeIds := b.nodeIds ++ [id] }, none)

/-- GraphBuilder.add_concrete_edge (builder.py lines 44-72): source/sink
existence and reserved-id checks, then the duplicate-concrete-edge scan, then
the conflict scan over the conditional edges; only when every check passes is
the edge appended. -/
def addConcreteEdge (b : BuilderG) (src sink : String) : BuilderG × Option BErr :=
  if src ∉ b.nodeIds then (b, some (.nodeNotFound src))
  else if src = "end" then
    (b, some (.graphConfig "End cannot be the source of a concrete edge"))
  else if sink ∉ b.nodeIds then (b, some (.nodeNotFound sink))
  else if sink = "start" then
    (b, some (.graphConfig "Start cannot be a sink of concrete edge"))
  else if (src, sink) ∈ b.concreteEdges then (b, some (.edgeExists src sink))
  else if b.conditionalEdges.any
      (fun ce => ce.source == src && ce.sinks.contains sink) then
    (b, some (.edgeExists src sink))
  else ({ b with concreteEdges := b.concreteEdges ++ [(src, sink)] }, none)

/-- The per-sink validation loop of add_conditional_edge (builder.py lines
83-88), returning the first error. -/
def checkCondSinks (nodeIds : List String) : List String → Option BErr
  | [] => none
  | s :: rest =>
    if s ∉ nodeIds then some (.nodeNotFound s)
    else if s = "start" then
      some (.graphConfig "Start cannot be a sink of conditional edge")
    else checkCondSinks nodeIds rest

/-- The conflict scan over existing concrete edges (builder.py lines 90-93):
the first concrete edge whose source is src and whose sink is among the new
sinks yields that sink. -/
def findConcreteConflict (edges : List (String × String)) (src : String)
    (sinks : List String) : Option String :=
  match edges with
  | [] => none
  | (x, w) :: rest =>
    if x == src && sinks.contains w then some w
    else findConcreteConflict rest src sinks

/-- The duplicate scan over existing conditional edges (builder.py lines
95-100): for the first existing conditional edge from src, the first new sink
already among its sinks yields that sink. -/
def findCondDup (ces : List CondEdgeB) (src : String) (sinks : List String) :
    Option String :=
  match ces with
  | [] => none
  | ce :: rest =>
    if ce.source == src then
      match sinks.find? (fun s => ce.sinks.contains s) with
      | some s => some s
      | none => findCondDup rest src sinks
    else findCondDup rest src sinks

/-- GraphBuilder.add_conditional_edge (builder.py lines 74-107).  Note that
no check compares the new call's own sink list against itself: a repeated
sink inside one call passes every scan.  The router decoration check is the
ConditionalEdge constructor's (edges/conditional.py), which runs after all
the builder's scans. -/
def addConditionalEdge (b : BuilderG) (src : String) (sinks : List String)
    (routerDecorated : Bool) : BuilderG × Option BErr :=
  if src ∉ b.nodeIds then (b, some (.nodeNotFound src))
  else if src = "end" then
    (b, some (.graphConfig "End cannot be the source of a conditional edge"))
  else
    match checkCondSinks b.nodeIds sinks with
    | some err => (b, some err)
    | none =>
      match findConcreteConflict b.concreteEdges src sinks with
      | some w => (b, some (.edgeExists src w))
      | none =>
        match findCondDup b.conditionalEdges src sinks with
        | some s => (b, some (.edgeExists src s))
        | none =>
          if routerDecorated then
            ({ b with conditionalEdges := b.conditionalEdges ++ [⟨src, sinks⟩] },
             none)
          else (b, some .routerNotDecorated)

/-- GraphBuilder.build_graph (builder.py lines 109-119): only the start and
end topology invariants are validated; pair-uniqueness of edges is not
re-checked here. -/
def buildGraph (b : BuilderG) : Option BErr :=
  if b.conditionalEdges.any (fun ce => ce.source == "start") then
    some (.graphConfig "Start node cannot have a conditional edge")
  else if !(b.concreteEdges.any (fun e => e.1 == "start")) then
    some (.graphConfig "Start node must have at least one outgoing concrete edge")
  else if !(b.concreteEdges.any (fun e => e.2 == "end") ||
            b.conditionalEdges.any (fun ce => ce.sinks.contains "end")) then
    some (.graphConfig "End node must have at least one incoming edge")
  else none

/-- Number of conditional branches from u whose candidate is v, across all
conditional edges of the builder's graph. -/
def branchCount (b : BuilderG) (u v : String) : Nat :=
  (b.conditionalEdges.map
    (fun ce => if ce.source = u then ce.sinks.count v else 0)).sum

/-- The builder after: add u, add a, start → u, a → end, and the conditional
edge u → ["a", "a"] whose own sink list repeats a. -/
def c7Builder : BuilderG :=
  (addConditionalEdge
    (addConcreteEdge
      (addConcreteEdge
        (addNode (addNode builderInit "u").1 "a").1 "start" "u").1
      "a" "end").1
    "u" ["a", "a"] true).1

/-- C7 is false: add_conditional_edge("u", ["a", "a"]) — a call whose own
sink list repeats a sink — is accepted (no EdgeExistsError), build_graph also
accepts the result, and the built graph carries two Conditional branches from
u with candidate a. -/
theorem c7_counterexample :
    (addConditionalEdge
      (addConcreteEdge
        (addConcreteEdge
          (addNode (addNode builderInit "u").1 "a").1 "start" "u").1
        "a" "end").1
      "u" ["a", "a"] true).2 = none ∧
    buildGraph c7Builder = none ∧
    branchCount c7Builder "u" "a" = 2 ∧
    ¬ branchCount c7Builder "u" "a" ≤ 1 := by
  refine ⟨rfl, rfl, rfl, by decide⟩

lemma findConcreteConflict_mem (edges : List (String × String)) (u v : String)
    (h : (u, v) ∈ edges) : findConcreteConflict edges u [v] = some v := by
  induction edges with
  | nil => cases h
  | cons p rest ih =>
    obtain ⟨x, w⟩ := p
    rw [findConcreteConflict]
    by_cases hc : (x == u && [v].contains w) = true
    · have hw : w = v := by
        have := (Bool.and_eq_true _ _).mp hc
        simpa using this.2
      rw [if_pos hc, hw]
    · rw [if_neg hc]
      rcases List.mem_cons.mp h with heq | hrest
      · exfalso
        apply hc
        simp [Prod.ext_iff] at heq
        simp [heq.1, heq.2]
      · exact ih hrest

lemma findConcreteConflict_not_mem (edges : List (String × String)) (u v : String)
    (h : (u, v) ∉ edges) : findConcreteConflict edges u [v] = none := by
  induction edges with
  | nil => rfl
  | cons p rest ih =>
    obtain ⟨x, w⟩ := p
    rw [findConcreteConflict]
    have hne : ¬(x == u && [v].contains w) = true := by
      intro hc
      have h1 := (Bool.and_eq_true _ _).mp hc
      have hx : x = u := by simpa using h1.1
      have hw : w = v := by simpa using h1.2
      exact h (by simp [hx, hw])
    rw [if_neg hne]
    exact ih (fun hm => h (List.mem_cons_of_mem _ hm))

lemma findCondDup_mem (ces : List CondEdgeB) (u v : String)
    (h : ∃ ce ∈ ces, ce.source = u ∧ v ∈ ce.sinks) :
    findCondDup ces u [v] = some v := by
  induction ces with
  | nil => simp at h
  | cons ce rest ih =>
    rw [findCondDup]
    by_cases hs : ce.source = u
    · rw [if_pos (by simpa using hs)]
      by_cases hv : v ∈ ce.sinks
      · simp [List.find?, hv]
      · have : [v].find? (fun s => ce.sinks.contains s) = none := by
          simp [List.find?, hv]
        rw [this]
        apply ih
        rcases h with ⟨ce', hce', hsrc, hsink⟩
        rcases List.mem_cons.mp hce' with rfl | hrest
        · exact absurd hsink hv
        · exact ⟨ce', hrest, hsrc, hsink⟩
    · rw [if_neg (by simpa using hs)]
      apply ih
      rcases h with ⟨ce', hce', hsrc, hsink⟩
      rcases List.mem_cons.mp hce' with rfl | hrest
      · exact absurd hsrc hs
      · exact ⟨ce', hrest, hsrc, hsink⟩

/-- C7 amended: pair-exclusivity is enforced across distinct calls — when a
Concrete edge (u, v) or a Conditional branch (u, v) already exists, a further
add_concrete_edge(u, v) and a further add_conditional_edge(u, [v], r) are
both rejected with EdgeExistsError naming (u, v) and leave the builder's
graph unchanged; but a single add_conditional_edge call whose own sink list
repeats a sink is accepted and creates duplicate branches that build_graph
does not reject. -/
theorem c7_amended (b : BuilderG) (u v : String)
    (hu : u ∈ b.nodeIds) (hue : u ≠ "end")
    (hv : v ∈ b.nodeIds) (hvs : v ≠ "start") :
    ((u, v) ∈ b.concreteEdges →
      addConcreteEdge b u v = (b, some (.edgeExists u v))) ∧
    ((∃ ce ∈ b.conditionalEdges, ce.source = u ∧ v ∈ ce.sinks) →
     (u, v) ∉ b.concreteEdges →
      addConcreteEdge b u v = (b, some (.edgeExists u v))) ∧
    (∀ d : Bool, (u, v) ∈ b.concreteEdges →
      addConditionalEdge b u [v] d = (b, some (.edgeExists u v))) ∧
    (∀ d : Bool, (∃ ce ∈ b.conditionalEdges, ce.source = u ∧ v ∈ ce.sinks) →
     (u, v) ∉ b.concreteEdges →
      addConditionalEdge b u [v] d = (b, some (.edgeExists u v))) := by
  refine ⟨?_, ?_, ?_, ?_⟩
  · intro hmem
    simp [addConcreteEdge, hu, hue, hv, hvs, hmem]
  · intro hex hnmem
    have hany : b.conditionalEdges.any
        (fun ce => ce.source == u && ce.sinks.contains v) = true := by
      rcases hex with ⟨ce, hce, hsrc, hsink⟩
      simp only [List.any_eq_true]
      exact ⟨ce, hce, by simp [hsrc, hsink]⟩
    simp only [addConcreteEdge, hu, hue, hv, hvs, hnmem, hany]
    simp [hnmem]
  · intro d hmem
    have hsinks : checkCondSinks b.nodeIds [v] = none := by
      simp [checkCondSinks, hv, hvs]
    simp [addConditionalEdge, hu, hue, hsinks,
      findConcreteConflict_mem b.concreteEdges u v hmem]
  · intro d hex hnmem
    have hsinks : checkCondSinks b.nodeIds [v] = none := by
      simp [checkCondSinks, hv, hvs]
    simp [addConditionalEdge, hu, hue, hsinks,
      findConcreteConflict_not_mem b.concreteEdges u v hnmem,
      findCondDup_mem b.conditionalEdges u v hex]

/-- Witness for C7 amended on a concrete builder holding the Concrete edge
(u, v) and a Conditional branch (w, v): both conflicting calls are rejected
with EdgeExistsError and the builder is returned unchanged. -/
theorem c7_amended_witness :
    addConcreteEdge ⟨["start", "end", "u", "v"], [("u", "v")], []⟩ "u" "v" =
      (⟨["start", "end", "u", "v"], [("u", "v")], []⟩,
       some (.edgeExists "u" "v")) ∧
    addConditionalEdge ⟨["start", "end", "u", "v"], [], [⟨"u", ["v"]⟩]⟩
        "u" ["v"] true =
      (⟨["start", "end", "u", "v"], [], [⟨"u", ["v"]⟩]⟩,
       some (.edgeExists "u" "v")) :=
  ⟨(c7_amended ⟨["start", "end", "u", "v"], [("u", "v")], []⟩ "u" "v"
      (by decide) (by decide) (by decide) (by decide)).1 (by decide),
   (c7_amended ⟨["start", "end", "u", "v"], [], [⟨"u", ["v"]⟩]⟩ "u" "v"
      (by decide) (by decide) (by decide) (by decide)).2.2.2 true
      (by decide) (by decide)⟩

/-! ## State objects and deep copies (claim C9)

The value-level model above treats copy.deepcopy as the identity; to reason
about aliasing, this object-level model gives every State object an address
in a store.  copy.deepcopy allocates a fresh object with an equal value;
in-place mutation overwrites the value at one address. -/

/-- The store of live State objects: address = index into the heap. -/
structure Store where
  heap : List StateV
deriving DecidableEq

/-- The messages value of the State object at an address. -/
def Store.valAt (st : Store) (a : Nat) : StateV := st.heap.getD a []

/-- copy.deepcopy of the State at address a: a fresh object, at a fresh
address, holding an equal value sharing no structure with the original. -/
def deepcopyS (st : Store) (a : Nat) : Store × Nat :=
  (⟨st.heap ++ [st.valAt a]⟩, st.heap.length)

/-- An in-place mutation of the State object at address a (e.g.
state.messages.append). -/
def mutate (st : Store) (a : Nat) (v : StateV) : Store := ⟨st.heap.set a v⟩

/-- The routing hops of one completed task at object level (executor.py
lines 121-131): for each sink reached (one per Concrete edge, the chosen one
per Conditional edge), append copy.deepcopy(result_state) — a separate fresh
copy per sink — to that sink's pending list.  Returns the grown store and the
(sink, address) pairs appended, in order. -/
def routeCopies (st : Store) (r : Nat) (sinks : List String) :
    Store × List (String × Nat) :=
  match sinks with
  | [] => (st, [])
  | s :: rest =>
    let c := deepcopyS st r
    let o := routeCopies c.1 r rest
    (o.1, (s, c.2) :: o.2)

/-- input_data for a non-Aggregator node (executor.py line 84):
copy.deepcopy(states[0]), a fresh copy of the first pending state. -/
def takeInput (st : Store) (pending : List Nat) : Store × Nat :=
  deepcopyS st pending.headI

lemma getD_set_ne (l : List StateV) (a b : Nat) (v : StateV) (h : a ≠ b) :
    (l.set a v).getD b [] = l.getD b [] := by
  induction l generalizing a b with
  | nil => rfl
  | cons x xs ih =>
    cases a with
    | zero =>
      cases b with
      | zero => exact absurd rfl h
      | succ m => rfl
    | succ n =>
      cases b with
      | zero => rfl
      | succ m => exact ih n m (fun hh => h (by rw [hh]))

lemma getD_append_lt (l1 l2 : List StateV) (a : Nat) (h : a < l1.length) :
    (l1 ++ l2).getD a [] = l1.getD a [] := by
  induction l1 generalizing a with
  | nil => simp at h
  | cons x xs ih =>
    cases a with
    | zero => rfl
    | succ n => exact ih n (by simpa using h)

lemma getD_append_add (l1 l2 : List StateV) (i : Nat) :
    (l1 ++ l2).getD (l1.length + i) [] = l2.getD i [] := by
  induction l1 with
  | nil => simp
  | cons x xs ih => simpa [Nat.succ_add] using ih

lemma getD_replicate_lt (n i : Nat) (v : StateV) (h : i < n) :
    (List.replicate n v).getD i [] = v := by
  induction n generalizing i with
  | zero => omega
  | succ m ih =>
    cases i with
    | zero => rfl
    | succ j => exact ih j (by omega)

lemma routeCopies_spec (sinks : List String) :
    ∀ st : Store, ∀ r : Nat, r < st.heap.length →
      (routeCopies st r sinks).1.heap =
        st.heap ++ List.replicate sinks.length (st.valAt r) ∧
      (routeCopies st r sinks).2 =
        sinks.zip (List.range' st.heap.length sinks.length) := by
  induction sinks with
  | nil => intro st r h; simp [routeCopies]
  | cons s rest ih =>
    intro st r h
    have hlen : (deepcopyS st r).1.heap.length = st.heap.length + 1 := by
      simp [deepcopyS]
    have hval : (deepcopyS st r).1.valAt r = st.valAt r := by
      simp only [deepcopyS, Store.valAt]
      exact getD_append_lt st.heap [st.valAt r] r h
    have := ih (deepcopyS st r).1 r (by omega)
    rw [hval, hlen] at this
    refine ⟨?_, ?_⟩
    · show (routeCopies (deepcopyS st r).1 r rest).1.heap = _
      rw [this.1]
      show st.heap ++ [st.valAt r] ++ _ = _
      rw [List.append_assoc]
      rfl
    · show (s, (deepcopyS st r).2) :: (routeCopies (deepcopyS st r).1 r rest).2 = _
      rw [this.2]
      show (s, st.heap.length) :: _ = (s :: rest).zip (List.range' st.heap.length (rest.length + 1))
      rw [List.range'_succ]
      rfl

lemma routeCopies_addr_mem (st : Store) (r : Nat) (sinks : List String)
    (h : r < st.heap.length) (p : String × Nat)
    (hp : p ∈ (routeCopies st r sinks).2) :
    st.heap.length ≤ p.2 ∧ p.2 < st.heap.length + sinks.length := by
  have hs := (routeCopies_spec sinks st r h).2
  rw [hs] at hp
  have := (List.of_mem_zip hp).2
  exact List.mem_range'_1.mp this

/-- C9: every routing hop appends a fresh deep copy — equal in value to the
produced result, at an address distinct from the producer's and from every
other sibling copy — old objects are untouched by the copying, and mutating
one delivered copy changes neither a sibling's copy nor any pre-existing
(upstream) object; likewise a non-Aggregator node receives a fresh deep copy
of its first pending state, and mutating it leaves every pre-existing object
unchanged. -/
theorem c9_state_isolation (st : Store) (r : Nat) (sinks : List String)
    (h : r < st.heap.length) :
    ((routeCopies st r sinks).2.map Prod.snd).Nodup ∧
    (∀ p ∈ (routeCopies st r sinks).2,
      (routeCopies st r sinks).1.valAt p.2 = st.valAt r ∧
      st.heap.length ≤ p.2) ∧
    (∀ b, b < st.heap.length →
      (routeCopies st r sinks).1.valAt b = st.valAt b) ∧
    (∀ p ∈ (routeCopies st r sinks).2, ∀ v : StateV,
      (∀ q ∈ (routeCopies st r sinks).2, p.2 ≠ q.2 →
        (mutate (routeCopies st r sinks).1 p.2 v).valAt q.2 =
          (routeCopies st r sinks).1.valAt q.2) ∧
      (∀ b, b < st.heap.length →
        (mutate (routeCopies st r sinks).1 p.2 v).valAt b = st.valAt b)) ∧
    (∀ pending : List Nat, pending.headI < st.heap.length →
      (takeInput st pending).2 = st.heap.length ∧
      (takeInput st pending).1.valAt (takeInput st pending).2 =
        st.valAt pending.headI ∧
      (∀ v : StateV, ∀ b, b < st.heap.length →
        (mutate (takeInput st pending).1 (takeInput st pending).2 v).valAt b =
          st.valAt b)) := by
  have hspec := routeCopies_spec sinks st r h
  have holdv : ∀ b, b < st.heap.length →
      (routeCopies st r sinks).1.valAt b = st.valAt b := by
    intro b hb
    show (routeCopies st r sinks).1.heap.getD b [] = _
    rw [hspec.1]
    exact getD_append_lt st.heap _ b hb
  refine ⟨?_, ?_, holdv, ?_, ?_⟩
  · rw [hspec.2, List.map_snd_zip sinks _ (by simp)]
    exact List.nodup_range' _ _
  · intro p hp
    obtain ⟨hlo, hhi⟩ := routeCopies_addr_mem st r sinks h p hp
    refine ⟨?_, hlo⟩
    show (routeCopies st r sinks).1.heap.getD p.2 [] = _
    rw [hspec.1]
    obtain ⟨i, hi⟩ : ∃ i, p.2 = st.heap.length + i := ⟨p.2 - st.heap.length, by omega⟩
    rw [hi, getD_append_add]
    exact getD_replicate_lt _ i _ (by omega)
  · intro p hp v
    obtain ⟨hlo, hhi⟩ := routeCopies_addr_mem st r sinks h p hp
    refine ⟨?_, ?_⟩
    · intro q hq hne
      show ((routeCopies st r sinks).1.heap.set p.2 v).getD q.2 [] = _
      exact getD_set_ne _ p.2 q.2 v hne
    · intro b hb
      have h1 : ((routeCopies st r sinks).1.heap.set p.2 v).getD b [] =
          (routeCopies st r sinks).1.heap.getD b [] :=
        getD_set_ne _ p.2 b v (by omega)
      show ((routeCopies st r sinks).1.heap.set p.2 v).getD b [] = _
      rw [h1]
      exact holdv b hb
  · intro pending hpend
    refine ⟨rfl, ?_, ?_⟩
    · show (st.heap ++ [st.valAt pending.headI]).getD st.heap.length [] = _
      have h0 := getD_append_add st.heap [st.valAt pending.headI] 0
      rw [Nat.add_zero] at h0
      exact h0
    · intro v b hb
      show ((st.heap ++ [st.valAt pending.headI]).set st.heap.length v).getD b [] = _
      rw [getD_set_ne _ _ _ _ (by omega)]
      exact getD_append_lt st.heap _ b hb

/-- Witness for C9 on a two-object store: routing [2] (at address 1) to two
sinks creates copies at fresh addresses 2 and 3; mutating the copy at 2
leaves the sibling copy at 3 unchanged. -/
theorem c9_state_isolation_witness :
    (mutate (routeCopies ⟨[[1], [2]]⟩ 1 ["u", "v"]).1 2 [99]).valAt 3 =
      (routeCopies ⟨[[1], [2]]⟩ 1 ["u", "v"]).1.valAt 3 :=
  (((c9_state_isolation ⟨[[1], [2]]⟩ 1 ["u", "v"] (by decide)).2.2.2.1
    ("u", 2) (by decide) [99]).1 ("v", 3) (by decide) (by decide))

/-! ## Node constructors (claim C10, nodes/nodes.py and decorators/actions.py) -/

/-- A Python function object as the node constructors see it: its behaviour
plus the is_node_action attribute set by the node_action decorator. -/
structure PyFunc where
  isNodeAction : Bool
  fn : StateV → StateV

/-- The node_action decorator (decorators/actions.py lines 58-96): wraps the
function and sets is_node_action on the wrapper. -/
def node_action (f : PyFunc) : PyFunc := { f with isNodeAction := true }

/-- The constructor errors relevant here. -/
inductive NodeCtorErr
  | nodeActionNotDecorated
deriving DecidableEq

/-- The constructed node record: id plus the accepted action. -/
structure PNode where
  nodeId : String
  func : PyFunc

/-- ProcessingNode.__init__ (nodes/nodes.py lines 32-39): raises
NodeActionNotDecoratedError when the function lacks is_node_action. -/
def mkProcessingNode (id : String) (f : PyFunc) : Except NodeCtorErr PNode :=
  if f.isNodeAction then .ok ⟨id, f⟩ else .error .nodeActionNotDecorated

/-- HumanInTheLoopNode.__init__ (nodes/nodes.py lines 235-248): when the
interaction handler lacks is_node_action it is silently wrapped with
node_action before delegating to the ProcessingNode constructor. -/
def mkHumanInTheLoopNode (id : String) (handler : PyFunc) :
    Except NodeCtorErr PNode :=
  if handler.isNodeAction then mkProcessingNode id handler
  else mkProcessingNode id (node_action handler)

/-- True on a successful constructor result. -/
def ctorOk : Except NodeCtorErr PNode → Bool
  | .ok _ => true
  | .error _ => false

/-- C10: the HumanInTheLoopNode constructor never raises — an untagged
handler is silently wrapped with node_action and the node is created holding
the wrapped handler — whereas the ProcessingNode constructor succeeds exactly
on tagged functions and raises NodeActionNotDecoratedError on an untagged
one. -/
theorem c10_human_node_wraps (id : String) (f : PyFunc) :
    ctorOk (mkHumanInTheLoopNode id f) = true ∧
    ctorOk (mkProcessingNode id f) = f.isNodeAction ∧
    (f.isNodeAction = false →
      mkProcessingNode id f = .error .nodeActionNotDecorated ∧
      mkHumanInTheLoopNode id f = .ok ⟨id, node_action f⟩) := by
  refine ⟨?_, ?_, ?_⟩
  · cases hb : f.isNodeAction
    · simp [mkHumanInTheLoopNode, mkProcessingNode, node_action, hb, ctorOk]
    · simp [mkHumanInTheLoopNode, mkProcessingNode, hb, ctorOk]
  · cases hb : f.isNodeAction
    · simp [mkProcessingNode, hb, ctorOk]
    · simp [mkProcessingNode, hb, ctorOk]
  · intro hf
    constructor
    · simp [mkProcessingNode, hf]
    · simp [mkHumanInTheLoopNode, mkProcessingNode, node_action, hf]

/-- Witness for C10 at a concrete untagged handler. -/
theorem c10_human_node_wraps_witness :
    mkProcessingNode "h" ⟨false, fun s => s⟩ =
      .error .nodeActionNotDecorated ∧
    mkHumanInTheLoopNode "h" ⟨false, fun s => s⟩ =
      .ok ⟨"h", node_action ⟨false, fun s => s⟩⟩ :=
  (c10_human_node_wraps "h" ⟨false, fun s => s⟩).2.2 rfl

end GraphOrchestrator
